import Mathlib

/-!
Verification of `airplane_ECS_modelling.py` (aircraft ECS steady-state
balance solver).

The single routine `ModelECS` computes two derived scalars by division
(`m = m_fresh / α` and `UA = (QsZ - Qsa)/(θ_ext - θIsp)`), assembles a
12×12 linear system `A·x = b` describing six two-equation balances
(mixing box, heating coil, vapor humidifier, thermal zone, building
envelope, two high-gain proportional controllers), solves it with
`np.linalg.solve`, then renders a psychrometric chart and prints tables.

The embedding works over ℚ (exact arithmetic).  The external
psychrometric collaborator `psy.w` is abstracted as a function
parameter `psyw : ℚ → ℚ → ℚ`; the chart collaborator `psy.chartA` and
the console prints are modelled as an event trace.  `np.linalg.solve`
is modelled by the exact closed-form solution of this particular
block-triangular system, guarded by the exact nonsingularity condition
of the assembled matrix (returned only when the matrix is nonsingular,
error otherwise), mirroring numpy raising `LinAlgError` on a singular
matrix.  Python float division by zero raises `ZeroDivisionError`;
divisions are therefore modelled with an explicit `Except` guard.
-/

namespace ECS

/-- Air specific heat, J/(kg·K): source constant `c = 1e3`. -/
def c : ℚ := 1000

/-- Latent heat of vaporisation, J/kg: source constant `l = 2496e3`. -/
def l : ℚ := 2496000

/-- The ten scalar inputs of `ModelECS`, in source order. -/
structure Inputs where
  m_fresh : ℚ
  α : ℚ
  θS : ℚ
  θIsp : ℚ
  φIsp : ℚ
  θ_turb : ℚ
  φ_turb : ℚ
  θ_ext : ℚ
  Qsa : ℚ
  Qla : ℚ
deriving Repr, DecidableEq

/-- Errors a call can raise: Python `ZeroDivisionError` on float
division by zero, and numpy `LinAlgError` on a singular matrix. -/
inductive Err where
  | divisionByZero
  | singularMatrix
deriving Repr, DecidableEq

/-- Checked division: Python float division raises `ZeroDivisionError`
when the divisor is zero. -/
def fdiv (a b : ℚ) : Except Err ℚ :=
  if b = 0 then .error .divisionByZero else .ok (a / b)

/-- Total mass flow `m = m_fresh / α` (value taken by the successful
division; ℚ division is total and agrees with it when `α ≠ 0`). -/
def m (inp : Inputs) : ℚ := inp.m_fresh / inp.α

/-- Zone sensible load `QsZ = -m*c*(θS - θIsp)`. -/
def QsZ (inp : Inputs) : ℚ := -(m inp) * c * (inp.θS - inp.θIsp)

/-- Envelope conductance `UA = (QsZ - Qsa)/(θ_ext - θIsp)`. -/
def UA (inp : Inputs) : ℚ := (QsZ inp - inp.Qsa) / (inp.θ_ext - inp.θIsp)

/-- Temperature controller gain `Kt = 1e10`. -/
def Kt : ℚ := 10000000000

/-- Humidity controller gain `Kw = 1e10`. -/
def Kw : ℚ := 10000000000

/-- Humidity ratio after the turbine, `w_turb = psy.w(θ_turb, φ_turb)`. -/
def w_turb (psyw : ℚ → ℚ → ℚ) (inp : Inputs) : ℚ := psyw inp.θ_turb inp.φ_turb

/-- Humidity ratio at the indoor setpoint, `wIsp = psy.w(θIsp, φIsp)`. -/
def wIsp (psyw : ℚ → ℚ → ℚ) (inp : Inputs) : ℚ := psyw inp.θIsp inp.φIsp

/-- The assembled 12×12 coefficient matrix, row by row exactly as the
source populates `A` (rows 0–1 mixing box MX, 2–3 heating coil HC,
4–5 vapor humidifier VH, 6–7 thermal zone TZ, 8–9 building BL,
10 temperature controller Kt, 11 humidity controller Kw).  Entries the
source never assigns stay `0` (numpy `np.zeros`). -/
def A (inp : Inputs) : Matrix (Fin 12) (Fin 12) ℚ :=
  Matrix.of
    ![![m inp * c, 0, 0, 0, 0, 0, -(1 - inp.α) * m inp * c, 0, 0, 0, 0, 0],
      ![0, m inp * l, 0, 0, 0, 0, 0, -(1 - inp.α) * m inp * l, 0, 0, 0, 0],
      ![m inp * c, 0, -(m inp * c), 0, 0, 0, 0, 0, 1, 0, 0, 0],
      ![0, m inp * l, 0, -(m inp * l), 0, 0, 0, 0, 0, 0, 0, 0],
      ![0, 0, m inp * c, 0, -(m inp * c), 0, 0, 0, 0, 0, 0, 0],
      ![0, 0, 0, m inp * l, 0, -(m inp * l), 0, 0, 0, 1, 0, 0],
      ![0, 0, 0, 0, m inp * c, 0, -(m inp * c), 0, 0, 0, 1, 0],
      ![0, 0, 0, 0, 0, m inp * l, 0, -(m inp * l), 0, 0, 0, 1],
      ![0, 0, 0, 0, 0, 0, UA inp, 0, 0, 0, 1, 0],
      ![0, 0, 0, 0, 0, 0, 0, 0, 0, 0, 0, 1],
      ![0, 0, 0, 0, 0, 0, Kt, 0, 1, 0, 0, 0],
      ![0, 0, 0, 0, 0, 0, 0, Kw, 0, 1, 0, 0]]

/-- The assembled right-hand side `b`, exactly as the source populates
it (unassigned entries stay `0`).  Note the source writes
`A[9, 7], A[9, 11], b[9] = 0, 1, Qla`: the coefficient of unknown 7 in
row 9 is assigned the value `0`. -/
def b (psyw : ℚ → ℚ → ℚ) (inp : Inputs) : Fin 12 → ℚ :=
  ![inp.α * m inp * c * inp.θ_turb,
    inp.α * m inp * l * w_turb psyw inp,
    0, 0, 0, 0, 0, 0,
    UA inp * inp.θ_ext + inp.Qsa,
    inp.Qla,
    Kt * inp.θIsp,
    Kw * wIsp psyw inp]

/-- Denominator of the temperature chain after eliminating the
triangular part of the system: `α·m·c + Kt + UA`. -/
def dT (inp : Inputs) : ℚ := inp.α * m inp * c + Kt + UA inp

/-- Denominator of the humidity chain: `α·m·l + Kw`. -/
def dW (inp : Inputs) : ℚ := inp.α * m inp * l + Kw

/-- Exact nonsingularity condition of the assembled matrix: the system
splits into a temperature block and a humidity block; the temperature
block is invertible iff `m ≠ 0` and `dT ≠ 0`, the humidity block iff
`m ≠ 0` and `dW ≠ 0`. -/
def nonsingular (inp : Inputs) : Prop :=
  m inp ≠ 0 ∧ dT inp ≠ 0 ∧ dW inp ≠ 0

instance (inp : Inputs) : Decidable (nonsingular inp) := by
  unfold nonsingular; infer_instance

/-- Zone-exit temperature `x 6` obtained by Gaussian elimination of the
assembled system. -/
def x6v (inp : Inputs) : ℚ :=
  (inp.α * m inp * c * inp.θ_turb + Kt * inp.θIsp + UA inp * inp.θ_ext + inp.Qsa) / dT inp

/-- Zone-exit humidity ratio `x 7`. -/
def x7v (psyw : ℚ → ℚ → ℚ) (inp : Inputs) : ℚ :=
  (inp.α * m inp * l * w_turb psyw inp + Kw * wIsp psyw inp + inp.Qla) / dW inp

/-- Mixing-box outlet temperature `x 0`. -/
def x0v (inp : Inputs) : ℚ := inp.α * inp.θ_turb + (1 - inp.α) * x6v inp

/-- Mixing-box outlet humidity ratio `x 1`. -/
def x1v (psyw : ℚ → ℚ → ℚ) (inp : Inputs) : ℚ :=
  inp.α * w_turb psyw inp + (1 - inp.α) * x7v psyw inp

/-- Heating-coil sensible duty `x 8` (from the temperature controller
row: `Kt·x6 + x8 = Kt·θIsp`). -/
def x8v (inp : Inputs) : ℚ := Kt * (inp.θIsp - x6v inp)

/-- Humidifier latent duty `x 9` (from the humidity controller row). -/
def x9v (psyw : ℚ → ℚ → ℚ) (inp : Inputs) : ℚ :=
  Kw * (wIsp psyw inp - x7v psyw inp)

/-- Heating-coil outlet temperature `x 2 = x 4` (the humidifier keeps
temperature constant). -/
def x2v (inp : Inputs) : ℚ := x0v inp + x8v inp / (m inp * c)

/-- Humidifier outlet humidity ratio `x 5`. -/
def x5v (psyw : ℚ → ℚ → ℚ) (inp : Inputs) : ℚ :=
  x1v psyw inp + x9v psyw inp / (m inp * l)

/-- Sensible zone load `x 10` (building envelope row:
`UA·x6 + x10 = UA·θ_ext + Qsa`). -/
def x10v (inp : Inputs) : ℚ := UA inp * (inp.θ_ext - x6v inp) + inp.Qsa

/-- The exact solution vector of the assembled system (unique when
`nonsingular` holds): the value `np.linalg.solve(A, b)` computes.
Unknowns in source order: θ0, w0, θ1, w1, θ2, w2, θ3, w3, QsHC, QlVH,
QsTZ, QlTZ. -/
def xsol (psyw : ℚ → ℚ → ℚ) (inp : Inputs) : Fin 12 → ℚ :=
  ![x0v inp, x1v psyw inp,
    x2v inp, x1v psyw inp,
    x2v inp, x5v psyw inp,
    x6v inp, x7v psyw inp,
    x8v inp, x9v psyw inp,
    x10v inp, inp.Qla]

/-- The linear solve step: returns the exact solution when the matrix
is nonsingular, otherwise the numpy singular-matrix error. -/
def solveLin (psyw : ℚ → ℚ → ℚ) (inp : Inputs) : Except Err (Fin 12 → ℚ) :=
  if nonsingular inp then .ok (xsol psyw inp) else .error .singularMatrix

/-- Python `round(q, 0)`: round half to even (banker's rounding). -/
def pyRound0 (q : ℚ) : ℤ :=
  if q - Int.floor q = 1 / 2 then
    (if 2 ∣ Int.floor q then Int.floor q else Int.floor q + 1)
  else round q

/-- Observable side effects of a call, in program order: the
`psy.chartA` rendering call, then the printed state-point table
(humidity scaled ×1000 to g/kg for display), the printed duty table
(scaled /1000 to kW), and the printed rounded `UA`. -/
inductive Event where
  | chartA (t : List ℚ) (w : List ℚ) (incid : List (List ℚ))
  | printTable (t : List ℚ) (wScaled : List ℚ)
  | printDuties (qkW : List ℚ)
  | printUA (ua : ℤ)
deriving Repr, DecidableEq

/-- The fixed 4×5 segment structure the source rebinds `A` to after the
solve and passes to `psy.chartA` (rows MX, HC, VH, TZ). -/
def A_chart : List (List ℚ) :=
  [[-1, 1, 0, 0, -1],
   [0, -1, 1, 0, 0],
   [0, 0, -1, 1, 0],
   [0, 0, 0, -1, 1]]

/-- The temperature path `t = np.append(θ_turb, x[0:8:2])`. -/
def pathT (inp : Inputs) (x : Fin 12 → ℚ) : List ℚ :=
  [inp.θ_turb, x 0, x 2, x 4, x 6]

/-- The humidity path `w = np.append(w_turb, x[1:8:2])` (raw kg/kg). -/
def pathW (psyw : ℚ → ℚ → ℚ) (inp : Inputs) (x : Fin 12 → ℚ) : List ℚ :=
  [w_turb psyw inp, x 1, x 3, x 5, x 7]

/-- The side effects emitted once the solve has succeeded, in source
order: `psy.chartA(t, w, A)`, the printed points table `P` (θ in °C,
w ×1000 in g/kg), the printed duties `Q/1000` in kW, and
`print("UA:", round(UA, 0))`. -/
def successEvents (psyw : ℚ → ℚ → ℚ) (inp : Inputs) (x : Fin 12 → ℚ) : List Event :=
  [.chartA (pathT inp x) (pathW psyw inp x) A_chart,
   .printTable (pathT inp x) ((pathW psyw inp x).map (fun v => 1000 * v)),
   .printDuties ([x 8, x 9, x 10, x 11].map (fun v => v / 1000)),
   .printUA (pyRound0 (UA inp))]

/-- The whole routine: the two checked divisions (`m`, then `UA` — the
values they produce are definitionally `m inp` and `UA inp` once the
guards pass), then the linear solve, then chart rendering and printing.
Returns the result (solution vector or error) paired with the list of
emitted side effects. -/
def ModelECS (psyw : ℚ → ℚ → ℚ) (inp : Inputs) :
    Except Err (Fin 12 → ℚ) × List Event :=
  match fdiv inp.m_fresh inp.α with
  | .error e => (.error e, [])
  | .ok mv =>
    match fdiv (-mv * c * (inp.θS - inp.θIsp) - inp.Qsa) (inp.θ_ext - inp.θIsp) with
    | .error e => (.error e, [])
    | .ok _ =>
      match solveLin psyw inp with
      | .error e => (.error e, [])
      | .ok x => (.ok x, successEvents psyw inp x)

lemma ModelECS_ok (psyw : ℚ → ℚ → ℚ) (inp : Inputs)
    (hα : inp.α ≠ 0) (hθ : inp.θ_ext - inp.θIsp ≠ 0) (hns : nonsingular inp) :
    ModelECS psyw inp = (.ok (xsol psyw inp), successEvents psyw inp (xsol psyw inp)) := by
  simp only [ModelECS, fdiv, if_neg hα, if_neg hθ, solveLin, if_pos hns]

lemma ModelECS_divzero_left (psyw : ℚ → ℚ → ℚ) (inp : Inputs)
    (hα : inp.α = 0) :
    ModelECS psyw inp = (.error .divisionByZero, []) := by
  simp only [ModelECS, fdiv, if_pos hα]

lemma ModelECS_divzero_right (psyw : ℚ → ℚ → ℚ) (inp : Inputs)
    (hα : inp.α ≠ 0) (hθ : inp.θ_ext - inp.θIsp = 0) :
    ModelECS psyw inp = (.error .divisionByZero, []) := by
  simp only [ModelECS, fdiv, if_neg hα, if_pos hθ]

lemma ModelECS_singular (psyw : ℚ → ℚ → ℚ) (inp : Inputs)
    (hα : inp.α ≠ 0) (hθ : inp.θ_ext - inp.θIsp ≠ 0) (hns : ¬ nonsingular inp) :
    ModelECS psyw inp = (.error .singularMatrix, []) := by
  simp only [ModelECS, fdiv, if_neg hα, if_neg hθ, solveLin, if_neg hns]

lemma c_ne_zero : c ≠ 0 := by norm_num [c]

lemma l_ne_zero : l ≠ 0 := by norm_num [l]

/-- The exact solution satisfies every assembled equation.  Each row
goal is restated (up to definitional equality) as the dot product of
the explicit row of `A` with the solution vector, expanded, and closed
by field arithmetic. -/
lemma mulVec_xsol (psyw : ℚ → ℚ → ℚ) (inp : Inputs) (hns : nonsingular inp) :
    Matrix.mulVec (A inp) (xsol psyw inp) = b psyw inp := by
  obtain ⟨hm, hdT, hdW⟩ := hns
  have hc := c_ne_zero
  have hl := l_ne_zero
  have hdT2 : inp.α * m inp * c + Kt + UA inp ≠ 0 := by rw [dT] at hdT; exact hdT
  have hdW2 : inp.α * m inp * l + Kw ≠ 0 := by rw [dW] at hdW; exact hdW
  funext j
  fin_cases j
  · show Matrix.dotProduct
        ![m inp * c, 0, 0, 0, 0, 0, -(1 - inp.α) * m inp * c, 0, 0, 0, 0, 0]
        (xsol psyw inp) = inp.α * m inp * c * inp.θ_turb
    simp only [Matrix.dotProduct, Fin.sum_univ_succ, Fin.sum_univ_zero, Matrix.cons_val_zero,
      Matrix.cons_val_succ, xsol]
    rw [x0v, x6v, dT]
    field_simp
    ring
  · show Matrix.dotProduct
        ![0, m inp * l, 0, 0, 0, 0, 0, -(1 - inp.α) * m inp * l, 0, 0, 0, 0]
        (xsol psyw inp) = inp.α * m inp * l * w_turb psyw inp
    simp only [Matrix.dotProduct, Fin.sum_univ_succ, Fin.sum_univ_zero, Matrix.cons_val_zero,
      Matrix.cons_val_succ, xsol]
    rw [x1v, x7v, dW]
    field_simp
    ring
  · show Matrix.dotProduct
        ![m inp * c, 0, -(m inp * c), 0, 0, 0, 0, 0, 1, 0, 0, 0]
        (xsol psyw inp) = 0
    simp only [Matrix.dotProduct, Fin.sum_univ_succ, Fin.sum_univ_zero, Matrix.cons_val_zero,
      Matrix.cons_val_succ, xsol]
    rw [x2v]
    field_simp
    ring
  · show Matrix.dotProduct
        ![0, m inp * l, 0, -(m inp * l), 0, 0, 0, 0, 0, 0, 0, 0]
        (xsol psyw inp) = 0
    simp only [Matrix.dotProduct, Fin.sum_univ_succ, Fin.sum_univ_zero, Matrix.cons_val_zero,
      Matrix.cons_val_succ, xsol]
    ring
  · show Matrix.dotProduct
        ![0, 0, m inp * c, 0, -(m inp * c), 0, 0, 0, 0, 0, 0, 0]
        (xsol psyw inp) = 0
    simp only [Matrix.dotProduct, Fin.sum_univ_succ, Fin.sum_univ_zero, Matrix.cons_val_zero,
      Matrix.cons_val_succ, xsol]
    ring
  · show Matrix.dotProduct
        ![0, 0, 0, m inp * l, 0, -(m inp * l), 0, 0, 0, 1, 0, 0]
        (xsol psyw inp) = 0
    simp only [Matrix.dotProduct, Fin.sum_univ_succ, Fin.sum_univ_zero, Matrix.cons_val_zero,
      Matrix.cons_val_succ, xsol]
    rw [x5v, x1v, x9v]
    field_simp
    ring
  · show Matrix.dotProduct
        ![0, 0, 0, 0, m inp * c, 0, -(m inp * c), 0, 0, 0, 1, 0]
        (xsol psyw inp) = 0
    simp only [Matrix.dotProduct, Fin.sum_univ_succ, Fin.sum_univ_zero, Matrix.cons_val_zero,
      Matrix.cons_val_succ, xsol]
    rw [x2v, x0v, x8v, x10v, x6v, dT]
    field_simp
    ring
  · show Matrix.dotProduct
        ![0, 0, 0, 0, 0, m inp * l, 0, -(m inp * l), 0, 0, 0, 1]
        (xsol psyw inp) = 0
    simp only [Matrix.dotProduct, Fin.sum_univ_succ, Fin.sum_univ_zero, Matrix.cons_val_zero,
      Matrix.cons_val_succ, xsol]
    rw [x5v, x1v, x9v, x7v, dW]
    field_simp
    ring
  · show Matrix.dotProduct
        ![0, 0, 0, 0, 0, 0, UA inp, 0, 0, 0, 1, 0]
        (xsol psyw inp) = UA inp * inp.θ_ext + inp.Qsa
    simp only [Matrix.dotProduct, Fin.sum_univ_succ, Fin.sum_univ_zero, Matrix.cons_val_zero,
      Matrix.cons_val_succ, xsol]
    rw [x10v]
    ring
  · show Matrix.dotProduct
        ![0, 0, 0, 0, 0, 0, 0, 0, 0, 0, 0, 1]
        (xsol psyw inp) = inp.Qla
    simp only [Matrix.dotProduct, Fin.sum_univ_succ, Fin.sum_univ_zero, Matrix.cons_val_zero,
      Matrix.cons_val_succ, xsol]
    ring
  · show Matrix.dotProduct
        ![0, 0, 0, 0, 0, 0, Kt, 0, 1, 0, 0, 0]
        (xsol psyw inp) = Kt * inp.θIsp
    simp only [Matrix.dotProduct, Fin.sum_univ_succ, Fin.sum_univ_zero, Matrix.cons_val_zero,
      Matrix.cons_val_succ, xsol]
    rw [x8v]
    ring
  · show Matrix.dotProduct
        ![0, 0, 0, 0, 0, 0, 0, Kw, 0, 1, 0, 0]
        (xsol psyw inp) = Kw * wIsp psyw inp
    simp only [Matrix.dotProduct, Fin.sum_univ_succ, Fin.sum_univ_zero, Matrix.cons_val_zero,
      Matrix.cons_val_succ, xsol]
    rw [x9v]
    ring

/-- A successful return always carries the exact solution vector. -/
lemma ok_eq_xsol (psyw : ℚ → ℚ → ℚ) (inp : Inputs) (x : Fin 12 → ℚ)
    (hx : (ModelECS psyw inp).1 = Except.ok x) : x = xsol psyw inp := by
  by_cases hα : inp.α = 0
  · rw [ModelECS_divzero_left psyw inp hα] at hx
    exact absurd hx (by simp)
  by_cases hθ : inp.θ_ext - inp.θIsp = 0
  · rw [ModelECS_divzero_right psyw inp hα hθ] at hx
    exact absurd hx (by simp)
  by_cases hns : nonsingular inp
  · rw [ModelECS_ok psyw inp hα hθ hns] at hx
    exact (Except.ok.inj hx).symm
  · rw [ModelECS_singular psyw inp hα hθ hns] at hx
    exact absurd hx (by simp)

/-- A trivial stand-in for the external psychrometric collaborator,
used only to build concrete witnesses (the claims hold for every
collaborator function). -/
def pw0 : ℚ → ℚ → ℚ := fun _ _ => 0

/-- A concrete well-posed input set: m_fresh = 1 kg/s, α = 1,
θS = θIsp = 20 °C, φIsp = 0.5, θ_turb = 5 °C, φ_turb = 0.9,
θ_ext = 30 °C, Qsa = Qla = 0. -/
def inpW : Inputs := ⟨1, 1, 20, 20, 1/2, 5, 9/10, 30, 0, 0⟩

lemma inpW_nonsingular : nonsingular inpW := by
  refine ⟨?_, ?_, ?_⟩ <;>
    norm_num [m, dT, dW, UA, QsZ, Kt, Kw, c, l, inpW]

lemma inpW_pos : 0 < inpW.α := by norm_num [inpW]

lemma inpW_le : inpW.α ≤ 1 := by norm_num [inpW]

lemma inpW_ne : inpW.θ_ext ≠ inpW.θIsp := by norm_num [inpW]

/-- Claim C1: for every input with α ∈ (0,1], θ_ext ≠ θIsp and a
nonsingular assembled matrix, the 12-vector returned by `ModelECS`
satisfies all 12 assembled equations exactly: `A · x = b`. -/
theorem c1_residual_zero (psyw : ℚ → ℚ → ℚ) (inp : Inputs)
    (hα0 : 0 < inp.α) (hα1 : inp.α ≤ 1) (hθ : inp.θ_ext ≠ inp.θIsp)
    (hns : nonsingular inp) :
    (ModelECS psyw inp).1 = Except.ok (xsol psyw inp) ∧
      Matrix.mulVec (A inp) (xsol psyw inp) = b psyw inp := by
  refine ⟨?_, mulVec_xsol psyw inp hns⟩
  rw [ModelECS_ok psyw inp (ne_of_gt hα0) (sub_ne_zero.mpr hθ) hns]

/-- Concrete instance of C1 at `inpW`. -/
theorem c1_residual_zero_witness :
    0 < inpW.α ∧ inpW.α ≤ 1 ∧ inpW.θ_ext ≠ inpW.θIsp ∧ nonsingular inpW ∧
      ((ModelECS pw0 inpW).1 = Except.ok (xsol pw0 inpW) ∧
        Matrix.mulVec (A inpW) (xsol pw0 inpW) = b pw0 inpW) :=
  ⟨inpW_pos, inpW_le, inpW_ne, inpW_nonsingular,
    c1_residual_zero pw0 inpW inpW_pos inpW_le inpW_ne inpW_nonsingular⟩

/-- Claim C9 (implicit): the building latent row is `0·x7 + 1·x11 = Qla`,
so any solution of the assembled system — in particular the returned
one — has latent zone load `x 11 = Qla`, independent of `x 7`. -/
theorem c9_latent_load_eq_Qla (psyw : ℚ → ℚ → ℚ) (inp : Inputs)
    (hns : nonsingular inp) :
    (∀ y : Fin 12 → ℚ, Matrix.mulVec (A inp) y = b psyw inp → y 11 = inp.Qla) ∧
      ∀ x : Fin 12 → ℚ, (ModelECS psyw inp).1 = Except.ok x → x 11 = inp.Qla := by
  constructor
  · intro y hy
    have h9 := congrFun hy 9
    calc y 11
        = Matrix.mulVec (A inp) y 9 := by
          show y 11 = Matrix.dotProduct ![0, 0, 0, 0, 0, 0, 0, 0, 0, 0, 0, 1] y
          simp only [Matrix.dotProduct, Fin.sum_univ_succ, Fin.sum_univ_zero,
            Matrix.cons_val_zero, Matrix.cons_val_succ, zero_mul, one_mul, zero_add, add_zero]
          rfl
      _ = b psyw inp 9 := h9
      _ = inp.Qla := rfl
  · intro x hx
    rw [ok_eq_xsol psyw inp x hx]
    rfl

/-- Concrete instance of C9 at `inpW`. -/
theorem c9_latent_load_eq_Qla_witness :
    nonsingular inpW ∧
      ((∀ y : Fin 12 → ℚ, Matrix.mulVec (A inpW) y = b pw0 inpW → y 11 = inpW.Qla) ∧
        ∀ x : Fin 12 → ℚ, (ModelECS pw0 inpW).1 = Except.ok x → x 11 = inpW.Qla) :=
  ⟨inpW_nonsingular, c9_latent_load_eq_Qla pw0 inpW inpW_nonsingular⟩

/-- Claim C4: the mixing-box rows make the stage-0 state the
flow-weighted average of the turbine-exit state (weight α) and the
zone-exit state (weight 1−α); at α = 1 the returned stage-0 state is
exactly the turbine-exit state. -/
theorem c4_mixing_weighted_average (psyw : ℚ → ℚ → ℚ) (inp : Inputs)
    (hα0 : 0 < inp.α) (hα1 : inp.α ≤ 1) (hθ : inp.θ_ext ≠ inp.θIsp)
    (hns : nonsingular inp) :
    (∀ y : Fin 12 → ℚ, Matrix.mulVec (A inp) y = b psyw inp →
        y 0 = inp.α * inp.θ_turb + (1 - inp.α) * y 6 ∧
        y 1 = inp.α * w_turb psyw inp + (1 - inp.α) * y 7) ∧
      (inp.α = 1 → ∀ x : Fin 12 → ℚ, (ModelECS psyw inp).1 = Except.ok x →
        x 0 = inp.θ_turb ∧ x 1 = w_turb psyw inp) := by
  obtain ⟨hm, -, -⟩ := hns
  have hc := c_ne_zero
  have hl := l_ne_zero
  constructor
  · intro y hy
    constructor
    · have h0 := congrFun hy 0
      have h0' : Matrix.dotProduct
          ![m inp * c, 0, 0, 0, 0, 0, -(1 - inp.α) * m inp * c, 0, 0, 0, 0, 0] y =
          inp.α * m inp * c * inp.θ_turb := h0
      simp only [Matrix.dotProduct, Fin.sum_univ_succ, Fin.sum_univ_zero,
        Matrix.cons_val_zero, Matrix.cons_val_succ, zero_mul, zero_add, add_zero] at h0'
      have h0n : m inp * c * y 0 + -(1 - inp.α) * m inp * c * y 6 =
          inp.α * m inp * c * inp.θ_turb := h0'
      have hkey : m inp * c * (y 0 - (inp.α * inp.θ_turb + (1 - inp.α) * y 6)) = 0 := by
        linear_combination h0n
      rcases mul_eq_zero.mp hkey with h | h
      · exact absurd h (mul_ne_zero hm hc)
      · linarith [sub_eq_zero.mp h]
    · have h1 := congrFun hy 1
      have h1' : Matrix.dotProduct
          ![0, m inp * l, 0, 0, 0, 0, 0, -(1 - inp.α) * m inp * l, 0, 0, 0, 0] y =
          inp.α * m inp * l * w_turb psyw inp := h1
      simp only [Matrix.dotProduct, Fin.sum_univ_succ, Fin.sum_univ_zero,
        Matrix.cons_val_zero, Matrix.cons_val_succ, zero_mul, zero_add, add_zero] at h1'
      have h1n : m inp * l * y 1 + -(1 - inp.α) * m inp * l * y 7 =
          inp.α * m inp * l * w_turb psyw inp := h1'
      have hkey : m inp * l * (y 1 - (inp.α * w_turb psyw inp + (1 - inp.α) * y 7)) = 0 := by
        linear_combination h1n
      rcases mul_eq_zero.mp hkey with h | h
      · exact absurd h (mul_ne_zero hm hl)
      · linarith [sub_eq_zero.mp h]
  · intro h1 x hx
    rw [ok_eq_xsol psyw inp x hx]
    constructor
    · show x0v inp = inp.θ_turb
      rw [x0v, h1]
      ring
    · show x1v psyw inp = w_turb psyw inp
      rw [x1v, h1]
      ring

/-- Concrete instance of C4 at `inpW` (which has α = 1). -/
theorem c4_mixing_weighted_average_witness :
    0 < inpW.α ∧ inpW.α ≤ 1 ∧ inpW.θ_ext ≠ inpW.θIsp ∧ nonsingular inpW ∧
      ((∀ y : Fin 12 → ℚ, Matrix.mulVec (A inpW) y = b pw0 inpW →
          y 0 = inpW.α * inpW.θ_turb + (1 - inpW.α) * y 6 ∧
          y 1 = inpW.α * w_turb pw0 inpW + (1 - inpW.α) * y 7) ∧
        (inpW.α = 1 → ∀ x : Fin 12 → ℚ, (ModelECS pw0 inpW).1 = Except.ok x →
          x 0 = inpW.θ_turb ∧ x 1 = w_turb pw0 inpW)) :=
  ⟨inpW_pos, inpW_le, inpW_ne, inpW_nonsingular,
    c4_mixing_weighted_average pw0 inpW inpW_pos inpW_le inpW_ne inpW_nonsingular⟩

/-- Claim C2 (amended): in assembled row 9 the coefficient of unknown 7
is assigned the value 0 — so the zone-exit humidity does not actually
enter the equation — while unknown 11 has coefficient 1 and the
constant term is Qla; every other coefficient of row 9 is zero.  The
row reads `x 11 = Qla`. -/
theorem c2_latent_row_structure (psyw : ℚ → ℚ → ℚ) (inp : Inputs) :
    A inp 9 7 = 0 ∧ A inp 9 11 = 1 ∧ b psyw inp 9 = inp.Qla ∧
      A inp 9 0 = 0 ∧ A inp 9 1 = 0 ∧ A inp 9 2 = 0 ∧ A inp 9 3 = 0 ∧
      A inp 9 4 = 0 ∧ A inp 9 5 = 0 ∧ A inp 9 6 = 0 ∧ A inp 9 8 = 0 ∧
      A inp 9 9 = 0 ∧ A inp 9 10 = 0 :=
  ⟨rfl, rfl, rfl, rfl, rfl, rfl, rfl, rfl, rfl, rfl, rfl, rfl, rfl⟩

/-- Counterexample to C2 as stated: at the concrete input `inpW` the
coefficient of unknown 7 in assembled row 9 is zero — so unknown 7 does
not appear in the equation, which reads `1·x11 = Qla`; the claim that
both unknowns appear in the row is false. -/
theorem c2_latent_row_counterexample :
    A inpW 9 7 = 0 ∧ A inpW 9 11 = 1 ∧ b pw0 inpW 9 = inpW.Qla :=
  ⟨rfl, rfl, rfl⟩

/-- Claim C5: the envelope conductance is
`UA = (QsZ − Qsa)/(θ_ext − θIsp)`; with no auxiliary sensible heat
(`Qsa = 0`) it is exactly `QsZ/(θ_ext − θIsp)`. -/
theorem c5_envelope_conductance (inp : Inputs)
    (hθ : inp.θ_ext ≠ inp.θIsp) (hQ : inp.Qsa = 0) :
    UA inp = (QsZ inp - inp.Qsa) / (inp.θ_ext - inp.θIsp) ∧
      UA inp = QsZ inp / (inp.θ_ext - inp.θIsp) := by
  refine ⟨rfl, ?_⟩
  rw [UA, hQ, sub_zero]

/-- Concrete instance of C5 at `inpW` (which has Qsa = Qla = 0). -/
theorem c5_envelope_conductance_witness :
    inpW.θ_ext ≠ inpW.θIsp ∧ inpW.Qsa = 0 ∧
      (UA inpW = (QsZ inpW - inpW.Qsa) / (inpW.θ_ext - inpW.θIsp) ∧
        UA inpW = QsZ inpW / (inpW.θ_ext - inpW.θIsp)) :=
  ⟨inpW_ne, rfl, c5_envelope_conductance inpW inpW_ne rfl⟩

/-- Claim C10 (implicit): the zone sensible load the code feeds into
the UA computation is `QsZ = −(m_fresh/α)·c·(θS − θIsp)` with
`c = 1000 J/(kg·K)`, hence
`UA = (−(m_fresh/α)·c·(θS − θIsp) − Qsa)/(θ_ext − θIsp)`. -/
theorem c10_QsZ_formula (inp : Inputs) :
    QsZ inp = -(inp.m_fresh / inp.α) * c * (inp.θS - inp.θIsp) ∧
      c = 1000 ∧
      UA inp = (-(inp.m_fresh / inp.α) * c * (inp.θS - inp.θIsp) - inp.Qsa) /
        (inp.θ_ext - inp.θIsp) :=
  ⟨rfl, rfl, rfl⟩

/-- Claim C6: the call fails with the division-by-zero error exactly
when α = 0 or θ_ext = θIsp (no pre-validation, no returned vector);
for all other inputs the two divisions (`m = m_fresh/α` and the `UA`
quotient) succeed with the derived values. -/
theorem c6_division_errors (psyw : ℚ → ℚ → ℚ) (inp : Inputs) :
    ((inp.α = 0 ∨ inp.θ_ext = inp.θIsp) ↔
        (ModelECS psyw inp).1 = Except.error Err.divisionByZero) ∧
      (inp.α ≠ 0 → inp.θ_ext ≠ inp.θIsp →
        fdiv inp.m_fresh inp.α = Except.ok (m inp) ∧
          fdiv (QsZ inp - inp.Qsa) (inp.θ_ext - inp.θIsp) = Except.ok (UA inp)) := by
  constructor
  · constructor
    · rintro (hα | hθ)
      · rw [ModelECS_divzero_left psyw inp hα]
      · by_cases hα : inp.α = 0
        · rw [ModelECS_divzero_left psyw inp hα]
        · rw [ModelECS_divzero_right psyw inp hα (by rw [hθ]; ring)]
    · intro h
      by_contra hcon
      push_neg at hcon
      obtain ⟨hα, hθ⟩ := hcon
      have hθ2 : inp.θ_ext - inp.θIsp ≠ 0 := sub_ne_zero.mpr hθ
      by_cases hns : nonsingular inp
      · rw [ModelECS_ok psyw inp hα hθ2 hns] at h
        exact absurd h (by simp)
      · rw [ModelECS_singular psyw inp hα hθ2 hns] at h
        exact absurd h (by simp)
  · intro hα hθ
    have hθ2 : inp.θ_ext - inp.θIsp ≠ 0 := sub_ne_zero.mpr hθ
    exact ⟨by rw [fdiv, if_neg hα]; rfl, by rw [fdiv, if_neg hθ2]; rfl⟩

/-- Concrete instance of C6 at `inpW` (both divisions succeed). -/
theorem c6_division_errors_witness :
    inpW.α ≠ 0 ∧ inpW.θ_ext ≠ inpW.θIsp ∧
      (fdiv inpW.m_fresh inpW.α = Except.ok (m inpW) ∧
        fdiv (QsZ inpW - inpW.Qsa) (inpW.θ_ext - inpW.θIsp) = Except.ok (UA inpW)) :=
  ⟨ne_of_gt inpW_pos, inpW_ne,
    (c6_division_errors pw0 inpW).2 (ne_of_gt inpW_pos) inpW_ne⟩

/-- A degenerate input with α = 0 (ill-posed: fresh-air flow divided
by a zero mixing ratio). -/
def inpZ : Inputs := ⟨1, 0, 20, 20, 1/2, 5, 9/10, 30, 0, 0⟩

/-- Claim C7: whenever the call ends in an error (division error or
singular matrix), nothing is printed and no chart call is made; every
emitted side effect implies the solve succeeded. -/
theorem c7_no_output_on_failure (psyw : ℚ → ℚ → ℚ) (inp : Inputs) :
    (∀ e : Err, (ModelECS psyw inp).1 = Except.error e → (ModelECS psyw inp).2 = []) ∧
      ((ModelECS psyw inp).2 ≠ [] →
        ∃ x : Fin 12 → ℚ, (ModelECS psyw inp).1 = Except.ok x) := by
  by_cases hα : inp.α = 0
  · rw [ModelECS_divzero_left psyw inp hα]
    exact ⟨fun e _ => rfl, fun h => absurd rfl h⟩
  by_cases hθ : inp.θ_ext - inp.θIsp = 0
  · rw [ModelECS_divzero_right psyw inp hα hθ]
    exact ⟨fun e _ => rfl, fun h => absurd rfl h⟩
  by_cases hns : nonsingular inp
  · rw [ModelECS_ok psyw inp hα hθ hns]
    exact ⟨fun e he => absurd he (by simp), fun _ => ⟨xsol psyw inp, rfl⟩⟩
  · rw [ModelECS_singular psyw inp hα hθ hns]
    exact ⟨fun e _ => rfl, fun h => absurd rfl h⟩

/-- Concrete instance of C7: with α = 0 the call fails and emits no
side effects at all. -/
theorem c7_no_output_on_failure_witness :
    (ModelECS pw0 inpZ).1 = Except.error Err.divisionByZero ∧
      (ModelECS pw0 inpZ).2 = [] := by
  have h1 : (ModelECS pw0 inpZ).1 = Except.error Err.divisionByZero := by
    rw [ModelECS_divzero_left pw0 inpZ rfl]
  exact ⟨h1, (c7_no_output_on_failure pw0 inpZ).1 Err.divisionByZero h1⟩

/-- Claim C8: on success the chart collaborator receives exactly the
five-node path — temperatures (θ_turb, x0, x2, x4, x6), raw humidity
ratios (w_turb, x1, x3, x5, x7) — and the fixed input-independent 4×5
incidence rows (−1,1,0,0,−1), (0,−1,1,0,0), (0,0,−1,1,0), (0,0,0,−1,1). -/
theorem c8_chart_arguments (psyw : ℚ → ℚ → ℚ) (inp : Inputs)
    (x : Fin 12 → ℚ) (hx : (ModelECS psyw inp).1 = Except.ok x) :
    A_chart = [[-1, 1, 0, 0, -1], [0, -1, 1, 0, 0], [0, 0, -1, 1, 0], [0, 0, 0, -1, 1]] ∧
      Event.chartA [inp.θ_turb, x 0, x 2, x 4, x 6]
          [w_turb psyw inp, x 1, x 3, x 5, x 7] A_chart ∈ (ModelECS psyw inp).2 := by
  refine ⟨rfl, ?_⟩
  have hxs := ok_eq_xsol psyw inp x hx
  by_cases hα : inp.α = 0
  · rw [ModelECS_divzero_left psyw inp hα] at hx
    exact absurd hx (by simp)
  by_cases hθ : inp.θ_ext - inp.θIsp = 0
  · rw [ModelECS_divzero_right psyw inp hα hθ] at hx
    exact absurd hx (by simp)
  by_cases hns : nonsingular inp
  · rw [ModelECS_ok psyw inp hα hθ hns, hxs]
    exact List.mem_cons_self _ _
  · rw [ModelECS_singular psyw inp hα hθ hns] at hx
    exact absurd hx (by simp)

/-- Concrete instance of C8 at `inpW`. -/
theorem c8_chart_arguments_witness :
    (ModelECS pw0 inpW).1 = Except.ok (xsol pw0 inpW) ∧
      (A_chart = [[-1, 1, 0, 0, -1], [0, -1, 1, 0, 0], [0, 0, -1, 1, 0], [0, 0, 0, -1, 1]] ∧
        Event.chartA [inpW.θ_turb, xsol pw0 inpW 0, xsol pw0 inpW 2, xsol pw0 inpW 4, xsol pw0 inpW 6]
            [w_turb pw0 inpW, xsol pw0 inpW 1, xsol pw0 inpW 3, xsol pw0 inpW 5, xsol pw0 inpW 7]
            A_chart ∈ (ModelECS pw0 inpW).2) := by
  have h1 : (ModelECS pw0 inpW).1 = Except.ok (xsol pw0 inpW) := by
    rw [ModelECS_ok pw0 inpW (ne_of_gt inpW_pos) (sub_ne_zero.mpr inpW_ne) inpW_nonsingular]
  exact ⟨h1, c8_chart_arguments pw0 inpW (xsol pw0 inpW) h1⟩

/-- Claim C3 (amended): with the fixed gains Kt = Kw = 1e10, the
returned zone-exit temperature and humidity ratio are within 1e-6 of
the setpoints θIsp and wIsp, provided the total mass flow and the
envelope conductance are nonnegative and the residual drive terms
(mixing drive plus envelope drive plus auxiliary heat, i.e. the
numerators of the closed-form deviations) are at most 10^4 in
magnitude.  (As originally stated — for *every* valid input — the
claim is false; see the counterexample.) -/
theorem c3_setpoint_tracking (psyw : ℚ → ℚ → ℚ) (inp : Inputs)
    (hα0 : 0 < inp.α) (hα1 : inp.α ≤ 1) (hθ : inp.θ_ext ≠ inp.θIsp)
    (hns : nonsingular inp) (hm0 : 0 ≤ m inp) (hUA : 0 ≤ UA inp)
    (hT : |inp.α * m inp * c * (inp.θ_turb - inp.θIsp) +
        UA inp * (inp.θ_ext - inp.θIsp) + inp.Qsa| ≤ 10000)
    (hW : |inp.α * m inp * l * (w_turb psyw inp - wIsp psyw inp) + inp.Qla| ≤ 10000)
    (x : Fin 12 → ℚ) (hx : (ModelECS psyw inp).1 = Except.ok x) :
    |x 6 - inp.θIsp| ≤ 1 / 1000000 ∧ |x 7 - wIsp psyw inp| ≤ 1 / 1000000 := by
  rw [ok_eq_xsol psyw inp x hx]
  have hαmc : 0 ≤ inp.α * m inp * c :=
    mul_nonneg (mul_nonneg hα0.le hm0) (by norm_num [c])
  have hαml : 0 ≤ inp.α * m inp * l :=
    mul_nonneg (mul_nonneg hα0.le hm0) (by norm_num [l])
  have hdTlow : 10000000000 ≤ dT inp := by
    rw [dT, Kt]; linarith
  have hdWlow : 10000000000 ≤ dW inp := by
    rw [dW, Kw]; linarith
  have hdTpos : 0 < dT inp := lt_of_lt_of_le (by norm_num) hdTlow
  have hdWpos : 0 < dW inp := lt_of_lt_of_le (by norm_num) hdWlow
  have hdTne : dT inp ≠ 0 := ne_of_gt hdTpos
  have hdWne : dW inp ≠ 0 := ne_of_gt hdWpos
  constructor
  · show |x6v inp - inp.θIsp| ≤ 1 / 1000000
    have h6 : x6v inp - inp.θIsp =
        (inp.α * m inp * c * (inp.θ_turb - inp.θIsp) +
          UA inp * (inp.θ_ext - inp.θIsp) + inp.Qsa) / dT inp := by
      rw [eq_div_iff hdTne, sub_mul, x6v, div_mul_cancel₀ _ hdTne, dT]
      ring
    rw [h6, abs_div, abs_of_pos hdTpos]
    calc |inp.α * m inp * c * (inp.θ_turb - inp.θIsp) +
          UA inp * (inp.θ_ext - inp.θIsp) + inp.Qsa| / dT inp
        ≤ 10000 / 10000000000 := div_le_div₀ (by norm_num) hT (by norm_num) hdTlow
      _ = 1 / 1000000 := by norm_num
  · show |x7v psyw inp - wIsp psyw inp| ≤ 1 / 1000000
    have h7 : x7v psyw inp - wIsp psyw inp =
        (inp.α * m inp * l * (w_turb psyw inp - wIsp psyw inp) + inp.Qla) / dW inp := by
      rw [eq_div_iff hdWne, sub_mul, x7v, div_mul_cancel₀ _ hdWne, dW]
      ring
    rw [h7, abs_div, abs_of_pos hdWpos]
    calc |inp.α * m inp * l * (w_turb psyw inp - wIsp psyw inp) + inp.Qla| / dW inp
        ≤ 10000 / 10000000000 := div_le_div₀ (by norm_num) hW (by norm_num) hdWlow
      _ = 1 / 1000000 := by norm_num

/-- An extreme but valid input (α = 1, θ_ext ≠ θIsp, nonsingular
matrix): a very hot turbine-exit temperature 1e10 °C. -/
def inpC3 : Inputs := ⟨1, 1, 0, 0, 1/2, 10000000000, 9/10, 1, 0, 0⟩

/-- Counterexample to C3 as stated: `inpC3` is a valid input (α ∈ (0,1],
θ_ext ≠ θIsp, nonsingular matrix) on which the returned zone-exit
temperature misses the setpoint by far more than 1e-6. -/
theorem c3_setpoint_tracking_counterexample :
    0 < inpC3.α ∧ inpC3.α ≤ 1 ∧ inpC3.θ_ext ≠ inpC3.θIsp ∧ nonsingular inpC3 ∧
      (ModelECS pw0 inpC3).1 = Except.ok (xsol pw0 inpC3) ∧
      1 / 1000000 < |xsol pw0 inpC3 6 - inpC3.θIsp| := by
  have hns : nonsingular inpC3 := by
    refine ⟨?_, ?_, ?_⟩ <;>
      norm_num [m, dT, dW, UA, QsZ, Kt, Kw, c, l, inpC3]
  refine ⟨by norm_num [inpC3], by norm_num [inpC3], by norm_num [inpC3], hns, ?_, ?_⟩
  · rw [ModelECS_ok pw0 inpC3 (by norm_num [inpC3]) (by norm_num [inpC3]) hns]
  · show 1 / 1000000 < |x6v inpC3 - inpC3.θIsp|
    have hval : x6v inpC3 - inpC3.θIsp = 10000000000 / 10000001 := by
      norm_num [x6v, dT, UA, QsZ, m, Kt, c, l, inpC3]
    rw [hval, abs_of_pos (by norm_num)]
    norm_num

/-- A moderate concrete input for the amended C3: θ_turb = 15 °C,
setpoints 20 °C, drive terms well under 10^4 W. -/
def inpW3 : Inputs := ⟨1, 1, 20, 20, 1/2, 15, 9/10, 30, 0, 0⟩

/-- Concrete instance of the amended C3 at `inpW3`. -/
theorem c3_setpoint_tracking_witness :
    0 < inpW3.α ∧ inpW3.α ≤ 1 ∧ inpW3.θ_ext ≠ inpW3.θIsp ∧ nonsingular inpW3 ∧
      0 ≤ m inpW3 ∧ 0 ≤ UA inpW3 ∧
      |inpW3.α * m inpW3 * c * (inpW3.θ_turb - inpW3.θIsp) +
        UA inpW3 * (inpW3.θ_ext - inpW3.θIsp) + inpW3.Qsa| ≤ 10000 ∧
      |inpW3.α * m inpW3 * l * (w_turb pw0 inpW3 - wIsp pw0 inpW3) + inpW3.Qla| ≤ 10000 ∧
      (ModelECS pw0 inpW3).1 = Except.ok (xsol pw0 inpW3) ∧
      (|xsol pw0 inpW3 6 - inpW3.θIsp| ≤ 1 / 1000000 ∧
        |xsol pw0 inpW3 7 - wIsp pw0 inpW3| ≤ 1 / 1000000) := by
  have h1 : 0 < inpW3.α := by norm_num [inpW3]
  have h2 : inpW3.α ≤ 1 := by norm_num [inpW3]
  have h3 : inpW3.θ_ext ≠ inpW3.θIsp := by norm_num [inpW3]
  have hns : nonsingular inpW3 := by
    refine ⟨?_, ?_, ?_⟩ <;>
      norm_num [m, dT, dW, UA, QsZ, Kt, Kw, c, l, inpW3]
  have hm0 : 0 ≤ m inpW3 := by norm_num [m, inpW3]
  have hUA : 0 ≤ UA inpW3 := by norm_num [UA, QsZ, m, c, inpW3]
  have hT : |inpW3.α * m inpW3 * c * (inpW3.θ_turb - inpW3.θIsp) +
      UA inpW3 * (inpW3.θ_ext - inpW3.θIsp) + inpW3.Qsa| ≤ 10000 := by
    norm_num [m, UA, QsZ, c, inpW3]
  have hW : |inpW3.α * m inpW3 * l * (w_turb pw0 inpW3 - wIsp pw0 inpW3) + inpW3.Qla| ≤ 10000 := by
    norm_num [m, l, w_turb, wIsp, pw0, inpW3]
  have hx : (ModelECS pw0 inpW3).1 = Except.ok (xsol pw0 inpW3) := by
    rw [ModelECS_ok pw0 inpW3 (ne_of_gt h1) (sub_ne_zero.mpr h3) hns]
  exact ⟨h1, h2, h3, hns, hm0, hUA, hT, hW, hx,
    c3_setpoint_tracking pw0 inpW3 h1 h2 h3 hns hm0 hUA hT hW (xsol pw0 inpW3) hx⟩

end ECS
